import Mathlib

/-!
Verification of the lyrics-scroller repository: a shallow embedding in Lean 4
of the timing model of `merge_lyrics_to_srt.py` (offset-table parsing, CSV
record loading, interval synthesis, SRT timestamp rendering), the record
writer of `synchronizer.py` together with its interactive capture loop, and
the offset-shifting row transform of `timer.py`.

Python floats are embedded as rationals (`ℚ`); Python's banker's rounding
(`round`, and the rounding done by the fixed-precision `%.3f` format) is
modelled exactly as round-half-to-even on `ℚ`.  File contents are embedded as
`String`s / lists of lines; fallible code returns `Except`.
-/

namespace LyricsScroller

/-! ## Constants from `merge_lyrics_to_srt.py` (lines 26-29) -/

/-- Base-32 frames per second (`FPS = 32`). -/
def FPS : ℚ := 32

/-- Maximum cue duration constant as written in the code: `MAX_DURATION = 4.0`.
Note the module docstring and the docstring of `compute_intervals` both say
3 seconds; the constant in the code is 4.0. -/
def MAX_DURATION : ℚ := 4

/-- Mandatory silent gap before the next cue: `GAP = 0.01`. -/
def GAP : ℚ := 1/100

/-- Minimum duration floor: `MIN_DURATION = 0.01`. -/
def MIN_DURATION : ℚ := 1/100

/-! ## Python rounding, modelled on ℚ -/

/-- Python 3 `round` (and the rounding used by the `%.3f` float format):
round half to even, on rationals. -/
def pyRound (q : ℚ) : ℤ :=
  let f : ℤ := ⌊q⌋
  let r : ℚ := q - f
  if r < 1/2 then f
  else if 1/2 < r then f + 1
  else if f % 2 = 0 then f else f + 1

/-! ## String utilities shared by the embeddings -/

/-- Python `str.strip()`: drop whitespace from both ends. -/
def pyStrip (s : String) : String :=
  ⟨((s.data.dropWhile Char.isWhitespace).reverse.dropWhile Char.isWhitespace).reverse⟩

/-- Value of a list of decimal digit characters, most significant first. -/
def digitsVal (ds : List Char) : ℕ :=
  ds.foldl (fun acc c => acc * 10 + (c.toNat - 48)) 0

/-- The regex atom `\d+`: a non-empty all-digit group, and its value. -/
def parseNatDigits (cs : List Char) : Option ℕ :=
  if cs ≠ [] ∧ cs.all Char.isDigit then some (digitsVal cs) else none

/-- Split a character list at every occurrence of `sep` (empty groups
kept), as Python's `str.split(sep)` does. -/
def splitChar (sep : Char) : List Char → List (List Char)
  | [] => [[]]
  | c :: cs =>
      if c = sep then [] :: splitChar sep cs
      else
        match splitChar sep cs with
        | [] => [[c]]
        | g :: gs => (c :: g) :: gs

/-- Groups of non-whitespace characters (with their separators dropped), the
accumulator holding the current group reversed. -/
def splitWsAux (acc : List Char) : List Char → List (List Char)
  | [] => [acc.reverse]
  | c :: cs =>
      if c.isWhitespace then acc.reverse :: splitWsAux [] cs
      else splitWsAux (c :: acc) cs

/-- Python `str.split()` with no argument: split on runs of whitespace,
dropping empty pieces. -/
def pySplit (s : String) : List String :=
  ((splitWsAux [] s.data).map (fun cs => (⟨cs⟩ : String))).filter (· ≠ "")

/-! ## Timecode parsing (`parse_timecode_base32`, lines 31-40) -/

/-- Model of `parse_timecode_base32`: full-match `(\d+):(\d+):(\d+)` on the
stripped input, then `mm * 60.0 + ss + ff / FPS`. -/
def parse_timecode_base32 (tc : String) : Except String ℚ :=
  match splitChar ':' (pyStrip tc).data with
  | [g1, g2, g3] =>
      match parseNatDigits g1, parseNatDigits g2, parseNatDigits g3 with
      | some mm, some ss, some ff =>
          .ok ((mm : ℚ) * 60 + (ss : ℚ) + (ff : ℚ) / FPS)
      | _, _, _ => .error ("Bad timecode " ++ tc)
  | _ => .error ("Bad timecode " ++ tc)

/-- Model of the line loop of `read_starts` (lines 57-75): the file is given
as its list of lines; blank lines are skipped, each other line must split
into exactly two whitespace-separated fields, the second being a timecode. -/
def readStartsLines : List String → Except String (List (String × ℚ))
  | [] => .ok []
  | ln :: rest =>
    let l := pyStrip ln
    if l = "" then readStartsLines rest
    else
      match pySplit l with
      | [track_no, tc] =>
          match parse_timecode_base32 tc with
          | .error e => .error e
          | .ok off =>
              match readStartsLines rest with
              | .error e => .error e
              | .ok tail => .ok ((track_no, off) :: tail)
      | _ => .error ("Bad line in starts.txt: " ++ l)

/-- Model of `read_starts` including the final `starts.sort(key=lambda x: x[0])`
(stable sort by the track-id string). -/
def read_starts (lines : List String) : Except String (List (String × ℚ)) :=
  match readStartsLines lines with
  | .error e => .error e
  | .ok starts => .ok (starts.mergeSort (fun a b => decide (a.1 ≤ b.1)))

/-! ## Interval synthesis (`compute_intervals`, lines 125-144) -/

/-- Model of `compute_intervals`: for each entry, `end = min(start +
MAX_DURATION, next_start - GAP)` (last entry: `start + MAX_DURATION`), then
`if end <= start: end = start + MIN_DURATION`. -/
def compute_intervals : List (ℚ × String) → List (ℚ × ℚ × String)
  | [] => []
  | (s, x) :: rest =>
    let e0 : ℚ :=
      match rest with
      | [] => s + MAX_DURATION
      | (s2, _) :: _ => min (s + MAX_DURATION) (s2 - GAP)
    let e : ℚ := if e0 ≤ s then s + MIN_DURATION else e0
    (s, e, x) :: compute_intervals rest

/-! ## SRT timestamp rendering (`s_to_srt_ts`, lines 42-55) -/

/-- Decimal digits of a natural number, most significant first. -/
def natDigits (n : ℕ) : List Char :=
  if h : n < 10 then [Nat.digitChar n]
  else natDigits (n / 10) ++ [Nat.digitChar (n % 10)]
  decreasing_by
    exact Nat.div_lt_self (Nat.lt_of_lt_of_le (by norm_num) (Nat.le_of_not_lt h)) (by norm_num)

/-- Python `f-string` fixed-width decimal (e.g. `02d`): zero-pad `natDigits`
on the left to at least `w` characters. -/
def padNum (w : ℕ) (n : ℕ) : String :=
  ⟨List.replicate (w - (natDigits n).length) '0' ++ natDigits n⟩

/-- The clamped total milliseconds of `s_to_srt_ts`:
`int(round(max(t,0) * 1000.0))`. -/
def msTotal (t : ℚ) : ℕ :=
  (pyRound ((if t < 0 then 0 else t) * 1000)).toNat

/-- The four timestamp fields `(hh, mm, ss, ms)` computed by successive
division in `s_to_srt_ts`. -/
def srtFields (t : ℚ) : ℕ × ℕ × ℕ × ℕ :=
  let m := msTotal t
  let hh := m / 3600000
  let rem := m % 3600000
  let mm := rem / 60000
  let rem2 := rem % 60000
  let ss := rem2 / 1000
  let ms := rem2 % 1000
  (hh, mm, ss, ms)

/-- Model of `s_to_srt_ts`: renders `HH:MM:SS,mmm` from `srtFields`. -/
def s_to_srt_ts (t : ℚ) : String :=
  padNum 2 (srtFields t).1 ++ ":" ++ padNum 2 (srtFields t).2.1 ++ ":" ++
    padNum 2 (srtFields t).2.2.1 ++ "," ++ padNum 3 (srtFields t).2.2.2

/-! ## Python `float()` on decimal literals -/

/-- Model of Python's `float(...)` builtin restricted to plain decimal
literals: optional surrounding whitespace, optional sign, digits with an
optional decimal point, at least one digit overall.  (The exotic inputs
`float` also accepts — exponents, `inf`, `nan`, underscores — do not occur
in this repository's data and are not modelled.) -/
def pyFloat (s : String) : Option ℚ :=
  let body : List Char := (pyStrip s).data
  let sign : ℚ := if body.headD ' ' = '-' then -1 else 1
  let digitsPart : List Char :=
    if body.headD ' ' = '-' ∨ body.headD ' ' = '+' then body.tail else body
  let ip : List Char := digitsPart.takeWhile (· ≠ '.')
  let rest : List Char := digitsPart.dropWhile (· ≠ '.')
  if rest = [] then
    if ip ≠ [] ∧ ip.all Char.isDigit then some (sign * digitsVal ip) else none
  else
    let fp := rest.tail
    if '.' ∈ fp then none
    else if (ip ≠ [] ∨ fp ≠ []) ∧ ip.all Char.isDigit ∧ fp.all Char.isDigit then
      some (sign * ((digitsVal ip : ℚ) + (digitsVal fp : ℚ) / 10 ^ fp.length))
    else none

/-! ## Record writer (`synchronizer.write_output`, lines 37-41) -/

/-- Model of `line.replace("\"", "\\\"")` in `write_output`. -/
def escapeQuotes (s : String) : String :=
  ⟨s.data.foldr (fun c acc => if c = '"' then '\\' :: '"' :: acc else c :: acc) []⟩

/-- Python's `%.3f` / `f'...:.3f'` fixed-precision float format on a
non-negative rational: round-half-even to 3 decimals, always printing three
fractional digits. -/
def format3 (q : ℚ) : String :=
  let n : ℕ := (pyRound (q * 1000)).toNat
  (⟨natDigits (n / 1000)⟩ : String) ++ "." ++ padNum 3 (n % 1000)

/-- One output line of `write_output`:
`f'\x7bt2:.3f\x7d,0,"\x7bline.replace(...)\x7d"\n'` with
`t2 = max(0.0, t + offset)`. -/
def writeLine (offset t : ℚ) (text : String) : String :=
  format3 (max 0 (t + offset)) ++ ",0,\"" ++ escapeQuotes text ++ "\"\n"

/-- Model of `write_output`: the full file contents written for a tap
history and offset (one `writeLine` per stamp, in order). -/
def write_output : List (ℚ × String) → ℚ → String
  | [], _ => ""
  | p :: rest, offset => writeLine offset p.1 p.2 ++ write_output rest offset

/-! ## CSV parsing (Python `csv.reader`, default dialect) -/

/-- Parser states of CPython's `_csv` reader (default dialect: delimiter
`,`, quote `"`, doublequote on, non-strict), restricted to `\n` record
terminators. -/
inductive CsvSt
  | startRecord
  | startField
  | inField
  | inQuoted
  | quoteInQuoted
deriving DecidableEq, Repr

/-- Character-by-character transition of the `csv.reader` state machine.
Accumulators: current field characters (reversed), completed fields of the
current record (reversed), completed records (reversed); all are reversed at
the end. -/
def csvAux (st : CsvSt) (cur : List Char) (fields : List String)
    (rows : List (List String)) : List Char → List (List String)
  | [] =>
      match st with
      | .startRecord => rows.reverse
      | _ => ((fields.reverse ++ [(⟨cur.reverse⟩ : String)]) :: rows).reverse
  | c :: cs =>
      match st with
      | .startRecord =>
          if c = '\n' then csvAux .startRecord [] [] ([] :: rows) cs
          else if c = '"' then csvAux .inQuoted cur fields rows cs
          else if c = ',' then csvAux .startField [] ("" :: fields) rows cs
          else csvAux .inField [c] fields rows cs
      | .startField =>
          if c = '"' then csvAux .inQuoted cur fields rows cs
          else if c = ',' then csvAux .startField [] ("" :: fields) rows cs
          else if c = '\n' then
            csvAux .startRecord [] [] ((("" :: fields).reverse) :: rows) cs
          else csvAux .inField [c] fields rows cs
      | .inField =>
          if c = ',' then
            csvAux .startField [] ((⟨cur.reverse⟩ : String) :: fields) rows cs
          else if c = '\n' then
            csvAux .startRecord [] []
              ((((⟨cur.reverse⟩ : String) :: fields).reverse) :: rows) cs
          else csvAux .inField (c :: cur) fields rows cs
      | .inQuoted =>
          if c = '"' then csvAux .quoteInQuoted cur fields rows cs
          else csvAux .inQuoted (c :: cur) fields rows cs
      | .quoteInQuoted =>
          -- a doubled quote is an escaped quote; any other character is
          -- appended alone (non-strict mode drops the stray quote) and the
          -- field continues unquoted
          if c = '"' then csvAux .inQuoted ('"' :: cur) fields rows cs
          else if c = ',' then
            csvAux .startField [] ((⟨cur.reverse⟩ : String) :: fields) rows cs
          else if c = '\n' then
            csvAux .startRecord [] []
              ((((⟨cur.reverse⟩ : String) :: fields).reverse) :: rows) cs
          else csvAux .inField (c :: cur) fields rows cs

/-- Model of `csv.reader` over a whole file's contents: the list of records,
each a list of field strings.  A blank line yields the empty record `[]`. -/
def csvParse (s : String) : List (List String) :=
  csvAux .startRecord [] [] [] s.data

/-! ## Record loading (`read_lyrics_csv`, lines 77-101) -/

/-- The row loop of `read_lyrics_csv`: skip empty rows (`if not row:
continue`), `float(row[0].strip())` must parse (else the `ValueError` is
re-raised as an invalid-start-time error), text is column 3 when present,
else empty. -/
def readRows : List (List String) → Except String (List (ℚ × String))
  | [] => .ok []
  | row :: rest =>
    if row = [] then readRows rest
    else
      match pyFloat (pyStrip (row.headD "")) with
      | none => .error "invalid start time"
      | some start =>
          match readRows rest with
          | .error e => .error e
          | .ok tail =>
              .ok ((start, if 3 ≤ row.length then row.getD 2 "" else "") :: tail)

/-- Model of `read_lyrics_csv`: parse the file contents as CSV, run the row
loop, then sort ascending by start time (`rows.sort(key=lambda x: x[0])`,
a stable sort). -/
def read_lyrics_csv (contents : String) : Except String (List (ℚ × String)) :=
  match readRows (csvParse contents) with
  | .error e => .error e
  | .ok rows => .ok (rows.mergeSort (fun a b => decide (a.1 ≤ b.1)))

/-! ## Global sort and synthesis entry point -/

/-- The global stable sort by start time used in `collect_all_entries`
(`entries.sort(key=lambda x: x[0])`, lines 121-122). -/
def sortEntries (l : List (ℚ × String)) : List (ℚ × String) :=
  l.mergeSort (fun a b => decide (a.1 ≤ b.1))

/-- Synthesis on an arbitrarily-ordered record list: globally sort by start
(as `collect_all_entries` does), then `compute_intervals`. -/
def synthesize (l : List (ℚ × String)) : List (ℚ × ℚ × String) :=
  compute_intervals (sortEntries l)

/-! ## Offset-shifting utility (`timer.py`, lines 19-26) -/

/-- Fractional decimal digits of a rational in `[0,1)` with terminating
decimal expansion (fuel-bounded). -/
def decimalFracDigits : ℚ → ℕ → List Char
  | _, 0 => []
  | q, fuel + 1 =>
      if q = 0 then []
      else
        let q10 := q * 10
        let d := (⌊q10⌋).toNat
        Nat.digitChar d :: decimalFracDigits (q10 - ⌊q10⌋) fuel

/-- Model of Python's `str(...)` on a float whose value is a terminating
decimal (the only case arising in `timer.py`, where values come from parsing
decimal literals and adding 0.5): minimal digits, at least one fractional
digit (`str(2.0) = "2.0"`). -/
def pyStr (q : ℚ) : String :=
  let sg : String := if q < 0 then "-" else ""
  let a : ℚ := |q|
  let ip : ℕ := (⌊a⌋).toNat
  let ds := decimalFracDigits (a - ⌊a⌋) 40
  sg ++ (⟨natDigits ip⟩ : String) ++ "." ++ (if ds = [] then "0" else (⟨ds⟩ : String))

/-- Model of one iteration of the row loop of `timer.py`: `row[0]` raises
`IndexError` on an empty row (uncaught — only `ValueError` is handled);
a non-numeric first field raises `ValueError`, caught, and the row is left
unchanged; otherwise the first field becomes `str(float(row[0]) + 0.5)`. -/
def shiftRow : List String → Except String (List String)
  | [] => .error "IndexError: list index out of range"
  | c0 :: rest =>
      match pyFloat c0 with
      | none => .ok (c0 :: rest)
      | some v => .ok (pyStr (v + 1/2) :: rest)

/-- The whole row loop of `timer.py` over one file's rows: the first
`IndexError` aborts the run (the file is never rewritten). -/
def shiftRows : List (List String) → Except String (List (List String))
  | [] => .ok []
  | row :: rest =>
      match shiftRow row with
      | .error e => .error e
      | .ok row2 =>
          match shiftRows rest with
          | .error e => .error e
          | .ok tail => .ok (row2 :: tail)

/-- The value a start time is serialized to by the 3-decimal format of
`write_output`: `t` rounded (half-even) to 3 decimal places. -/
def round3 (t : ℚ) : ℚ :=
  (pyRound (t * 1000) : ℚ) / 1000

/-! ## The capture loop of `synchronizer.py` (`main`, lines 75-137) -/

/-- One command read by the capture loop.  `mark` carries the value the
stopwatch `now()` returns at that iteration (the clock is external input to
the loop). -/
inductive Cmd
  | mark (t : ℚ)
  | undo
  | pauseToggle
  | quit
deriving DecidableEq, Repr

/-- The mutable session state of the capture loop: current line index `i`,
the tap history `stamps`, the `paused` flag, and whether the loop was left
by `break` (`q` or end of input). -/
structure CapState where
  i : ℕ
  stamps : List (ℚ × String)
  paused : Bool
  finished : Bool
deriving DecidableEq, Repr

/-- Initial session state: `i = 0`, no stamps, running. -/
def initState : CapState :=
  ⟨0, [], false, false⟩

/-- One iteration of the capture loop body, given the command read:
`q` breaks; `u` pops the last stamp and decrements `i` when the history is
non-empty (else no-op); `p` toggles pause; the default (ENTER) records
`(now(), lines[i])` and increments `i`, unless paused (then it is rejected
with a warning and nothing changes). -/
def step (lines : List String) (s : CapState) : Cmd → CapState
  | .quit => { s with finished := true }
  | .undo =>
      if s.stamps = [] then s
      else { s with i := s.i - 1, stamps := s.stamps.dropLast }
  | .pauseToggle => { s with paused := !s.paused }
  | .mark t =>
      if s.paused then s
      else { s with i := s.i + 1, stamps := s.stamps ++ [(t, lines.getD s.i "")] }

/-- The `while i < len(lines)` loop: commands are consumed one per
iteration; the loop stops when the guard fails, when a `quit` was processed,
or when the command stream is exhausted (EOF). -/
def run (lines : List String) (s : CapState) : List Cmd → CapState
  | [] => s
  | c :: cs =>
      if s.finished ∨ lines.length ≤ s.i then s
      else run lines (step lines s c) cs

/-! ## Helper lemmas -/

/-- A list that is already sorted for the comparator is left unchanged by
`mergeSort` (restatement of `List.mergeSort_of_sorted` for rewriting). -/
theorem mergeSort_sorted_eq {α : Type} (le : α → α → Bool) (l : List α)
    (h : List.Pairwise (fun a b => le a b = true) l) : l.mergeSort le = l :=
  List.mergeSort_of_sorted h

/-! ## Theorems -/

/-- C1 counterexample: the timeline `[(5,"x"),(5,"y")]` has non-decreasing
start times, yet the first cue produced by `compute_intervals` ends at
`5 + MIN_DURATION = 5.01`, so `end_0 + GAP = 5.02 > 5 = start_1`: the
claimed non-overlap inequality fails exactly when consecutive records share
(or nearly share) a start time. -/
theorem c1_overlap_counterexample :
    List.Chain' (fun a b : ℚ × String => a.1 ≤ b.1) [((5 : ℚ), "x"), (5, "y")] ∧
    compute_intervals [((5 : ℚ), "x"), (5, "y")] =
      [(5, 501/100, "x"), (5, 9, "y")] ∧
    ¬ (501/100 + GAP ≤ (5 : ℚ)) := by
  refine ⟨by norm_num [List.chain'_cons], ?_, by norm_num [GAP]⟩
  norm_num [compute_intervals, MAX_DURATION, GAP, MIN_DURATION, min_def]

/-- C2: evaluating `compute_intervals` on `[(0,"a"), (1,"b"), (10,"c")]`.
The code's constant is `MAX_DURATION = 4.0`, so the middle cue ends at
`min(1 + 4, 10 - 0.01) = 5.0` and the last at `10 + 4 = 14.0` — not the
`4.0` and `13.0` demanded by the claim (and by the code's own docstrings,
which say the cap is 3 seconds). -/
theorem c2_max_duration_divergence :
    compute_intervals [((0 : ℚ), "a"), (1, "b"), (10, "c")] =
      [(0, 99/100, "a"), (1, 5, "b"), (10, 14, "c")] ∧
    compute_intervals [((0 : ℚ), "a"), (1, "b"), (10, "c")] ≠
      [(0, 99/100, "a"), (1, 4, "b"), (10, 13, "c")] ∧
    MAX_DURATION = 4 := by
  refine ⟨?_, ?_, rfl⟩ <;>
    norm_num [compute_intervals, MAX_DURATION, GAP, MIN_DURATION, min_def]

/-- C3 counterexample: the offset-table line `"01 00:01:16"` does not parse
to 61.5 seconds: the timecode fields are MM=00, SS=01, FF=16, so the offset
is `0*60 + 1 + 16/32 = 1.5`. -/
theorem c3_timecode_counterexample :
    read_starts ["01 00:01:16"] ≠ Except.ok [("01", (123 : ℚ)/2)] := by
  have h : read_starts ["01 00:01:16"] = Except.ok [("01", (3 : ℚ)/2)] := by
    simp +decide [read_starts, readStartsLines, parse_timecode_base32, pySplit,
      splitWsAux, splitChar, parseNatDigits, digitsVal, pyStrip, FPS,
      mergeSort_sorted_eq]
    norm_num
  rw [h]
  intro hc
  have : ((3 : ℚ)/2) = (123 : ℚ)/2 := by
    simpa using hc
  norm_num at this

/-- C3 amended: `"01 00:01:16"` parses to the pair `("01", 1.5)` (one
second plus 16 frames at 32 fps). -/
theorem c3_timecode_parse :
    read_starts ["01 00:01:16"] = Except.ok [("01", (3 : ℚ)/2)] := by
  simp +decide [read_starts, readStartsLines, parse_timecode_base32, pySplit,
    splitWsAux, splitChar, parseNatDigits, digitsVal, pyStrip, FPS,
    mergeSort_sorted_eq]
  norm_num

/-- C4 counterexample: a text containing a double quote does not round-trip
through `write_output` and `read_lyrics_csv`: the writer's backslash escape
is not understood by the reader's CSV dialect, so `a"b` is read back as
`a\b"` (the escaping backslash is kept, the escaped quote is dropped, and
the closing quote becomes literal). -/
theorem c4_quote_counterexample :
    read_lyrics_csv (write_output [((2 : ℚ), "a\"b")] 0) =
      Except.ok [((2 : ℚ), "a\\b\"")] ∧
    read_lyrics_csv (write_output [((2 : ℚ), "a\"b")] 0) ≠
      Except.ok [((2 : ℚ), "a\"b")] := by
  have h : read_lyrics_csv (write_output [((2 : ℚ), "a\"b")] 0) =
      Except.ok [((2 : ℚ), "a\\b\"")] := by
    have hfmt : format3 (max 0 ((2 : ℚ) + 0)) = "2.000" := by
      have hmax : max 0 ((2 : ℚ) + 0) = 2 := by norm_num
      have h2000 : (pyRound ((2 : ℚ) * 1000)).toNat = 2000 := by
        have hv : pyRound ((2 : ℚ) * 1000) = 2000 := by norm_num [pyRound]
        rw [hv]; rfl
      rw [hmax]
      simp only [format3, h2000]
      simp +decide [padNum, natDigits]
    have hw : write_output [((2 : ℚ), "a\"b")] 0 = "2.000,0,\"a\\\"b\"\n" := by
      simp only [write_output, writeLine, hfmt, escapeQuotes]
      decide
    rw [hw]
    simp +decide [read_lyrics_csv, readRows, csvParse, csvAux, pyFloat,
      pyStrip, digitsVal, mergeSort_sorted_eq]
  refine ⟨h, ?_⟩
  rw [h]
  intro hc
  have : ("a\\b\"" : String) = "a\"b" := by
    simpa using hc
  simp at this

/-- C5 counterexample: the two-record timelines `[(5,"a"),(5,"b")]` and
`[(5,"b"),(5,"a")]` are permutations of one another, but synthesis (stable
sort by start, then `compute_intervals`) gives different cue lists: the tie
on start time is broken by input order. -/
theorem c5_perm_counterexample :
    [((5 : ℚ), "a"), (5, "b")].Perm [((5 : ℚ), "b"), (5, "a")] ∧
    synthesize [((5 : ℚ), "a"), (5, "b")] ≠ synthesize [((5 : ℚ), "b"), (5, "a")] := by
  constructor
  · exact List.Perm.swap _ _ _
  · have h1 : sortEntries [((5 : ℚ), "a"), (5, "b")] = [((5 : ℚ), "a"), (5, "b")] := by
      apply mergeSort_sorted_eq
      simp
    have h2 : sortEntries [((5 : ℚ), "b"), (5, "a")] = [((5 : ℚ), "b"), (5, "a")] := by
      apply mergeSort_sorted_eq
      simp
    simp only [synthesize, h1, h2]
    norm_num [compute_intervals, MAX_DURATION, GAP, MIN_DURATION, min_def]
    decide

/-- C6 counterexample: for the two records with identical start `5.0` it is
the FIRST cue whose end is forced to `5.01` by the minimum-duration floor;
the second record is the last one, so its cue ends at
`5 + MAX_DURATION = 9.0`, not at `5.01` as the claim states. -/
theorem c6_second_cue_counterexample :
    (compute_intervals [((5 : ℚ), "x"), (5, "y")]).map (fun c => c.2.1) =
      [501/100, 9] ∧
    (9 : ℚ) ≠ 5 + MIN_DURATION := by
  constructor
  · norm_num [compute_intervals, MAX_DURATION, GAP, MIN_DURATION, min_def]
  · norm_num [MIN_DURATION]

/-- Every cue emitted by `compute_intervals` has a strictly positive
duration: either the floor branch fires (`end = start + MIN_DURATION`) or
the computed end was strictly above the start. -/
theorem compute_intervals_end_pos :
    ∀ (l : List (ℚ × String)), ∀ c ∈ compute_intervals l, c.1 < c.2.1
  | [], c, hc => by simp [compute_intervals] at hc
  | (s, x) :: rest, c, hc => by
      simp only [compute_intervals, List.mem_cons] at hc
      rcases hc with hc | hc
      · subst hc
        by_cases hle :
            (match rest with
              | [] => s + MAX_DURATION
              | (s2, _) :: _ => min (s + MAX_DURATION) (s2 - GAP)) ≤ s
        · simp only [hle, if_pos, MIN_DURATION]
          norm_num
        · simp only [hle, if_neg, not_false_iff]
          exact lt_of_not_le hle
      · exact compute_intervals_end_pos rest c hc

/-- C1 amended: when every pair of consecutive start times is separated by
strictly more than `GAP`, the cues produced by `compute_intervals` never
overlap: each cue's end plus `GAP` is at most the next cue's start.  (On
timelines that are merely non-decreasing the property fails — see the
counterexample — because the minimum-duration floor pushes a cue past a
start time that is at most `GAP` away.) -/
theorem c1_gap_nonoverlap :
    ∀ (entries : List (ℚ × String)),
      List.Chain' (fun a b : ℚ × String => a.1 + GAP < b.1) entries →
      List.Chain' (fun c d : ℚ × ℚ × String => c.2.1 + GAP ≤ d.1)
        (compute_intervals entries)
  | [], _ => by simp [compute_intervals]
  | [(s, x)], _ => by simp [compute_intervals]
  | (s, x) :: (s2, y) :: rest, h => by
      rw [List.chain'_cons] at h
      have hMAX : (0 : ℚ) < MAX_DURATION := by norm_num [MAX_DURATION]
      have hlt : s < min (s + MAX_DURATION) (s2 - GAP) :=
        lt_min (by linarith) (by linarith [h.1])
      have hrec := c1_gap_nonoverlap ((s2, y) :: rest) h.2
      have hstep : compute_intervals ((s, x) :: (s2, y) :: rest) =
          (s, min (s + MAX_DURATION) (s2 - GAP), x) ::
            compute_intervals ((s2, y) :: rest) := by
        rw [compute_intervals]
        simp only [if_neg (not_le.mpr hlt)]
      rw [hstep, List.chain'_cons']
      refine ⟨?_, hrec⟩
      intro b hb
      simp only [compute_intervals] at hb
      simp only [List.head?_cons, Option.mem_def, Option.some.injEq] at hb
      subst hb
      simp only []
      calc min (s + MAX_DURATION) (s2 - GAP) + GAP
          ≤ (s2 - GAP) + GAP := by gcongr; exact min_le_right _ _
        _ = s2 := by ring

/-- C1 witness: a concrete separated timeline for which the non-overlap
conclusion holds. -/
theorem c1_gap_nonoverlap_witness :
    List.Chain' (fun c d : ℚ × ℚ × String => c.2.1 + GAP ≤ d.1)
      (compute_intervals [((0 : ℚ), "a"), (1, "b")]) :=
  c1_gap_nonoverlap [((0 : ℚ), "a"), (1, "b")]
    (by norm_num [List.chain'_cons, GAP])

/-- C6 amended: on every non-decreasing timeline each cue's end is strictly
greater than its start; for the two records with identical start `5.0` it is
the first cue whose end is forced to `5 + MIN_DURATION = 5.01`, while the
second (being the last record) ends at `5 + MAX_DURATION = 9.0`. -/
theorem c6_end_positive (entries : List (ℚ × String))
    (hs : List.Chain' (fun a b : ℚ × String => a.1 ≤ b.1) entries) :
    (∀ c ∈ compute_intervals entries, c.1 < c.2.1) ∧
    compute_intervals [((5 : ℚ), "x"), (5, "y")] =
      [(5, 5 + MIN_DURATION, "x"), (5, 5 + MAX_DURATION, "y")] := by
  refine ⟨compute_intervals_end_pos entries, ?_⟩
  norm_num [compute_intervals, MAX_DURATION, GAP, MIN_DURATION, min_def]

/-- C6 witness: the strict-positivity conclusion evaluated on the floored
first cue of the identical start-time pair. -/
theorem c6_end_positive_witness :
    ((5 : ℚ), 5 + MIN_DURATION, "x").1 < ((5 : ℚ), 5 + MIN_DURATION, "x").2.1 :=
  (c6_end_positive [((5 : ℚ), "x"), (5, "y")]
    (by norm_num [List.chain'_cons])).1 ((5 : ℚ), 5 + MIN_DURATION, "x")
    (by
      rw [(c6_end_positive [((5 : ℚ), "x"), (5, "y")]
        (by norm_num [List.chain'_cons])).2]
      simp)

/-- C8: the SRT timestamp conversion.  The total milliseconds are the
rounding of the non-negativity-clamped input times 1000; hours are obtained
by unbounded division (no wrap at 24), minutes and seconds lie in `[0,60)`,
milliseconds in `[0,1000)`, the four fields recombine exactly to the total,
and every negative input renders as `00:00:00,000`. -/
theorem c8_srt_fields (t : ℚ) :
    msTotal t = (pyRound (max t 0 * 1000)).toNat ∧
    (srtFields t).1 = msTotal t / 3600000 ∧
    (srtFields t).2.1 < 60 ∧
    (srtFields t).2.2.1 < 60 ∧
    (srtFields t).2.2.2 < 1000 ∧
    (srtFields t).1 * 3600000 + (srtFields t).2.1 * 60000 +
      (srtFields t).2.2.1 * 1000 + (srtFields t).2.2.2 = msTotal t ∧
    (t < 0 → s_to_srt_ts t = "00:00:00,000") := by
  have hclamp : (if t < 0 then (0 : ℚ) else t) = max t 0 := by
    by_cases h : t < 0
    · simp [h, max_eq_right h.le]
    · simp [h, max_eq_left (not_lt.mp h)]
  refine ⟨by rw [msTotal, hclamp], rfl, ?_, ?_, ?_, ?_, ?_⟩
  · simp only [srtFields]
    omega
  · simp only [srtFields]
    omega
  · simp only [srtFields]
    omega
  · simp only [srtFields]
    omega
  · intro hneg
    have hm : msTotal t = 0 := by
      rw [msTotal, if_pos hneg]
      norm_num [pyRound]
    have hf : srtFields t = (0, 0, 0, 0) := by
      simp [srtFields, hm]
    simp only [s_to_srt_ts, hf]
    simp +decide [padNum, natDigits]

/-- C8 witness: the negative-input clamp evaluated at `t = -1`. -/
theorem c8_srt_fields_witness : s_to_srt_ts (-1) = "00:00:00,000" :=
  (c8_srt_fields (-1)).2.2.2.2.2.2 (by norm_num)

/-- C10: the `timer.py` row transform catches only `ValueError`: a row with
a non-numeric first field is returned unchanged, while an empty row (as
produced by a blank line in a CSV file) raises `IndexError` from `row[0]`,
which nothing catches, so the whole run aborts at the first empty row. -/
theorem c10_shift_guard :
    (∀ (c0 : String) (rest : List String), pyFloat c0 = none →
      shiftRow (c0 :: rest) = Except.ok (c0 :: rest)) ∧
    shiftRow [] = Except.error "IndexError: list index out of range" ∧
    (∀ rows : List (List String), [] ∈ rows →
      shiftRows rows = Except.error "IndexError: list index out of range") := by
  refine ⟨?_, rfl, ?_⟩
  · intro c0 rest h
    simp [shiftRow, h]
  · intro rows hmem
    induction rows with
    | nil => simp at hmem
    | cons row rest ih =>
      rcases List.mem_cons.mp hmem with hrow | hrest
      · subst hrow
        rfl
      · rw [shiftRows]
        cases row with
        | nil => rfl
        | cons c0 cs =>
          have hok : ∃ r, shiftRow (c0 :: cs) = Except.ok r := by
            rw [shiftRow]
            cases pyFloat c0 <;> exact ⟨_, rfl⟩
          obtain ⟨r, hr⟩ := hok
          rw [hr, ih hrest]

/-- C10 witness: a non-numeric first field is skipped unchanged. -/
theorem c10_shift_guard_witness : shiftRow ["abc"] = Except.ok ["abc"] :=
  c10_shift_guard.1 "abc" [] (by decide)

/-- C5 amended: synthesis is invariant under permutation of the input
records provided all start times are pairwise distinct (with a tie the
stable sort preserves input order, so permutations of equal-start records
change the output — see the counterexample). -/
theorem c5_sorted_perm (l l' : List (ℚ × String)) (hp : l.Perm l')
    (hd : (l.map Prod.fst).Nodup) : synthesize l = synthesize l' := by
  suffices hs : sortEntries l = sortEntries l' by
    rw [synthesize, synthesize, hs]
  have htrans : ∀ (a b c : ℚ × String), decide (a.1 ≤ b.1) = true →
      decide (b.1 ≤ c.1) = true → decide (a.1 ≤ c.1) = true := by
    intro a b c hab hbc
    simp only [decide_eq_true_eq] at hab hbc ⊢
    exact le_trans hab hbc
  have htotal : ∀ (a b : ℚ × String),
      (decide (a.1 ≤ b.1) || decide (b.1 ≤ a.1)) = true := by
    intro a b
    rcases le_total a.1 b.1 with h | h <;> simp [h]
  have hperm : (sortEntries l).Perm (sortEntries l') :=
    ((l.mergeSort_perm _).trans hp).trans (l'.mergeSort_perm _).symm
  have hle : List.Pairwise (fun a b : ℚ × String => a.1 ≤ b.1) (sortEntries l) :=
    (List.sorted_mergeSort htrans htotal l).imp (by
      intro a b h
      simpa using h)
  have hle' : List.Pairwise (fun a b : ℚ × String => a.1 ≤ b.1) (sortEntries l') :=
    (List.sorted_mergeSort htrans htotal l').imp (by
      intro a b h
      simpa using h)
  have hndm : ((sortEntries l).map Prod.fst).Nodup :=
    (((l.mergeSort_perm _).map Prod.fst).nodup_iff).mpr hd
  have hndm' : ((sortEntries l').map Prod.fst).Nodup :=
    (((l'.mergeSort_perm _).map Prod.fst).nodup_iff).mpr
      (((hp.map Prod.fst).nodup_iff).mp hd)
  have hne : List.Pairwise (fun a b : ℚ × String => a.1 ≠ b.1) (sortEntries l) :=
    List.pairwise_map.mp hndm
  have hne' : List.Pairwise (fun a b : ℚ × String => a.1 ≠ b.1) (sortEntries l') :=
    List.pairwise_map.mp hndm'
  have hlt : List.Pairwise (fun a b : ℚ × String => a.1 < b.1) (sortEntries l) :=
    (hle.and hne).imp (fun h => lt_of_le_of_ne h.1 h.2)
  have hlt' : List.Pairwise (fun a b : ℚ × String => a.1 < b.1) (sortEntries l') :=
    (hle'.and hne').imp (fun h => lt_of_le_of_ne h.1 h.2)
  haveI : IsAntisymm (ℚ × String) (fun a b => a.1 < b.1) :=
    ⟨fun a b hab hba => absurd (lt_trans hab hba) (lt_irrefl _)⟩
  exact List.eq_of_perm_of_sorted hperm hlt hlt'

/-- C5 witness: two distinct-start records synthesize identically in either
input order. -/
theorem c5_sorted_perm_witness :
    synthesize [((1 : ℚ), "a"), (2, "b")] = synthesize [((2 : ℚ), "b"), (1, "a")] :=
  c5_sorted_perm [((1 : ℚ), "a"), (2, "b")] [((2 : ℚ), "b"), (1, "a")]
    (List.Perm.swap _ _ _)
    (by simp)

/-- The row loop of `read_lyrics_csv` fails exactly when some non-empty row
has an unparseable first column. -/
theorem readRows_error_iff :
    ∀ rows : List (List String),
      (∃ msg, readRows rows = Except.error msg) ↔
        ∃ row ∈ rows, row ≠ [] ∧ pyFloat (pyStrip (row.headD "")) = none
  | [] => by simp [readRows]
  | row :: rest => by
      by_cases hrow : row = []
      · subst hrow
        rw [readRows, if_pos rfl]
        rw [readRows_error_iff rest]
        simp
      · rw [readRows, if_neg hrow]
        cases hpf : pyFloat (pyStrip (row.headD "")) with
        | none =>
            apply iff_of_true ⟨_, rfl⟩
            exact ⟨row, List.mem_cons_self _ _, hrow, hpf⟩
        | some v =>
            cases hrr : readRows rest with
            | error e =>
                apply iff_of_true ⟨e, rfl⟩
                obtain ⟨r, hrmem, hr⟩ := (readRows_error_iff rest).mp ⟨e, hrr⟩
                exact ⟨r, List.mem_cons_of_mem _ hrmem, hr⟩
            | ok tail =>
                apply iff_of_false
                · rintro ⟨msg, hmsg⟩
                  cases hmsg
                · rintro ⟨r, hrmem, hrne, hrpf⟩
                  rcases List.mem_cons.mp hrmem with hre | hre
                  · subst hre
                    rw [hpf] at hrpf
                    cases hrpf
                  · obtain ⟨msg, hmsg⟩ :=
                      (readRows_error_iff rest).mpr ⟨r, hre, hrne, hrpf⟩
                    rw [hmsg] at hrr
                    cases hrr

/-- C7 amended: `read_lyrics_csv` errors exactly when some non-empty CSV row
has a first column that is not parseable as a real number (of either sign —
negative values are accepted), and a row missing the third column is read
with empty text, never an error. -/
theorem c7_error_iff (contents : String) :
    ((∃ msg, read_lyrics_csv contents = Except.error msg) ↔
      ∃ row ∈ csvParse contents, row ≠ [] ∧
        pyFloat (pyStrip (row.headD "")) = none) ∧
    (∀ (s c2 : String) (v : ℚ), pyFloat (pyStrip s) = some v →
      readRows [[s]] = Except.ok [(v, "")] ∧
      readRows [[s, c2]] = Except.ok [(v, "")]) := by
  constructor
  · rw [← readRows_error_iff (csvParse contents)]
    rw [read_lyrics_csv]
    cases hrr : readRows (csvParse contents) with
    | error e => simp
    | ok rows =>
        apply iff_of_false
        · rintro ⟨msg, hmsg⟩
          cases hmsg
        · rintro ⟨msg, hmsg⟩
          cases hmsg
  · intro s c2 v hv
    constructor
    · rw [readRows, if_neg (by simp)]
      simp [hv, readRows]
    · rw [readRows, if_neg (by simp)]
      simp [hv, readRows]

/-- C7 witness: a parseable single-column row and two-column row both load
with empty text. -/
theorem c7_error_iff_witness :
    readRows [["1.5"]] = Except.ok [((3 : ℚ)/2, "")] ∧
    readRows [["1.5", "0"]] = Except.ok [((3 : ℚ)/2, "")] :=
  (c7_error_iff "").2 "1.5" "0" ((3 : ℚ)/2)
    (by simp +decide [pyFloat, pyStrip, digitsVal]; norm_num)

/-- One loop iteration preserves the session invariant: the line index
equals the number of stamps, and the stamps' texts are exactly the first
`i` lyric lines in order. -/
theorem cap_step_preserved (lines : List String) (s : CapState) (c : Cmd)
    (h1 : s.i = s.stamps.length)
    (h2 : s.stamps.map Prod.snd = lines.take s.i)
    (h3 : s.i ≤ lines.length)
    (hguard : s.i < lines.length) :
    (step lines s c).i = (step lines s c).stamps.length ∧
    (step lines s c).stamps.map Prod.snd = lines.take (step lines s c).i ∧
    (step lines s c).i ≤ lines.length := by
  cases c with
  | quit => exact ⟨h1, h2, h3⟩
  | pauseToggle => exact ⟨h1, h2, h3⟩
  | undo =>
      by_cases hnil : s.stamps = []
      · simp only [step, if_pos hnil]
        exact ⟨h1, h2, h3⟩
      · have hlen : 1 ≤ s.stamps.length := by
          cases hs : s.stamps with
          | nil => exact absurd hs hnil
          | cons a l => simp [hs]
        simp only [step, if_neg hnil]
        refine ⟨?_, ?_, ?_⟩
        · simp [List.length_dropLast, h1]
        · have hdl : (s.stamps.dropLast).map Prod.snd =
              (s.stamps.map Prod.snd).dropLast := by
            induction s.stamps with
            | nil => rfl
            | cons a l ihl =>
                cases l with
                | nil => rfl
                | cons b l2 => simpa using ihl
          rw [hdl, h2, List.dropLast_eq_take, List.length_take, List.take_take]
          congr 1
          omega
        · omega
  | mark t =>
      by_cases hp : s.paused
      · simp only [step, if_pos hp]
        exact ⟨h1, h2, h3⟩
      · simp only [step, if_neg hp]
        refine ⟨?_, ?_, ?_⟩
        · simp [h1]
        · rw [List.map_append, h2, List.take_succ, List.getElem?_eq_getElem hguard]
          have hget : lines.getD s.i "" = lines[s.i] :=
            List.getD_eq_getElem lines "" hguard
          rw [List.map_cons, List.map_nil, hget]
          rfl
        · omega

/-- Running any command sequence from a state satisfying the session
invariant ends in a state satisfying it. -/
theorem cap_run_preserved (lines : List String) (cmds : List Cmd) :
    ∀ s : CapState,
      s.i = s.stamps.length →
      s.stamps.map Prod.snd = lines.take s.i →
      s.i ≤ lines.length →
      (run lines s cmds).i = (run lines s cmds).stamps.length ∧
      (run lines s cmds).stamps.map Prod.snd = lines.take (run lines s cmds).i ∧
      (run lines s cmds).i ≤ lines.length := by
  induction cmds with
  | nil => intro s h1 h2 h3; exact ⟨h1, h2, h3⟩
  | cons c cs ih =>
      intro s h1 h2 h3
      rw [run]
      by_cases hstop : (s.finished = true) ∨ lines.length ≤ s.i
      · rw [if_pos hstop]
        exact ⟨h1, h2, h3⟩
      · rw [if_neg hstop]
        push_neg at hstop
        exact ih (step lines s c)
          (cap_step_preserved lines s c h1 h2 h3 hstop.2).1
          (cap_step_preserved lines s c h1 h2 h3 hstop.2).2.1
          (cap_step_preserved lines s c h1 h2 h3 hstop.2).2.2

/-- C9: after processing any command sequence, the capture loop's index
equals the number of recorded stamps, stamp `k` carries the text of lyric
line `k` (the stamps' texts are the first `i` lines, in order), the index
never exceeds the line count (and, being a natural number that only
decrements when a stamp is popped, never goes below zero), and on the
normal exit paths (guard failure, not `quit`/EOF) every lyric line has
exactly one stamp. -/
theorem c9_capture_invariant (lines : List String) (cmds : List Cmd) :
    (run lines initState cmds).i = (run lines initState cmds).stamps.length ∧
    (run lines initState cmds).stamps.map Prod.snd =
      lines.take (run lines initState cmds).i ∧
    (run lines initState cmds).i ≤ lines.length ∧
    ((run lines initState cmds).finished = false →
      (lines.length ≤ (run lines initState cmds).i ↔
        (run lines initState cmds).stamps.map Prod.snd = lines)) := by
  obtain ⟨h1, h2, h3⟩ := cap_run_preserved lines cmds initState rfl
    (by simp [initState]) (by simp [initState])
  refine ⟨h1, h2, h3, fun _ => ⟨?_, ?_⟩⟩
  · intro hle
    have hi : (run lines initState cmds).i = lines.length := le_antisymm h3 hle
    rw [h2, hi, List.take_length]
  · intro hall
    have := congrArg List.length (h2.symm.trans hall)
    rw [List.length_take] at this
    omega

/-- C9 witness: a concrete session — two lines, a mark, an undo, and two
marks — exits the loop normally with both lines stamped in order. -/
theorem c9_capture_invariant_witness :
    (run ["a", "b"] initState
      [Cmd.mark 1, Cmd.undo, Cmd.mark 2, Cmd.mark 3]).stamps.map Prod.snd =
      ["a", "b"] :=
  ((c9_capture_invariant ["a", "b"]
      [Cmd.mark 1, Cmd.undo, Cmd.mark 2, Cmd.mark 3]).2.2.2
    (by decide)).mp (by decide)



/-- C7 counterexample: `read_lyrics_csv` accepts a row whose first column
parses to a negative number — `float()` has no sign restriction and the code
performs no non-negativity check — contradicting the claim that such rows
are rejected. -/
theorem c7_negative_counterexample :
    read_lyrics_csv "-1.5,0,x\n" = Except.ok [((-3 : ℚ)/2, "x")] ∧
    ((-3 : ℚ)/2 < 0) := by
  constructor
  · simp +decide [read_lyrics_csv, readRows, csvParse, csvAux, pyFloat,
      pyStrip, digitsVal, mergeSort_sorted_eq]
    norm_num
  · norm_num

/-! ## Decimal digit arithmetic (towards the write/read round trip) -/

/-- The character of a decimal digit is a digit character. -/
theorem digitChar_isDigit (d : ℕ) (h : d < 10) : (Nat.digitChar d).isDigit = true := by
  interval_cases d <;> decide

/-- Recovering the digit from its character. -/
theorem digitChar_toNat (d : ℕ) (h : d < 10) : (Nat.digitChar d).toNat - 48 = d := by
  interval_cases d <;> decide

/-- `natDigits` never returns the empty list. -/
theorem natDigits_ne_nil (n : ℕ) : natDigits n ≠ [] := by
  rw [natDigits]
  split <;> simp

/-- Every character produced by `natDigits` is a digit. -/
theorem natDigits_all_digit (n : ℕ) : ∀ c ∈ natDigits n, c.isDigit = true := by
  induction n using Nat.strong_induction_on with
  | _ n ih =>
    intro c hc
    rw [natDigits] at hc
    split at hc
    · next h =>
        simp only [List.mem_singleton] at hc
        subst hc
        exact digitChar_isDigit n h
    · next h =>
        rcases List.mem_append.mp hc with hmem | hmem
        · exact ih (n / 10) (Nat.div_lt_self (by omega) (by omega)) c hmem
        · simp only [List.mem_singleton] at hmem
          subst hmem
          exact digitChar_isDigit (n % 10) (Nat.mod_lt _ (by omega))

/-- Appending one digit character multiplies the value by ten and adds the
digit. -/
theorem digitsVal_append_singleton (xs : List Char) (c : Char) :
    digitsVal (xs ++ [c]) = digitsVal xs * 10 + (c.toNat - 48) := by
  simp [digitsVal, List.foldl_append]

/-- `digitsVal` inverts `natDigits`. -/
theorem digitsVal_natDigits (n : ℕ) : digitsVal (natDigits n) = n := by
  induction n using Nat.strong_induction_on with
  | _ n ih =>
    rw [natDigits]
    split
    · next h =>
        simp [digitsVal]
        exact digitChar_toNat n h
    · next h =>
        rw [digitsVal_append_singleton,
          ih (n / 10) (Nat.div_lt_self (by omega) (by omega)),
          digitChar_toNat (n % 10) (Nat.mod_lt _ (by omega))]
        omega

/-- Leading zero characters do not change the value of a digit string. -/
theorem digitsVal_replicate_zero (k : ℕ) (ds : List Char) :
    digitsVal (List.replicate k '0' ++ ds) = digitsVal ds := by
  induction k with
  | zero => rfl
  | succ k ih =>
      rw [List.replicate_succ, List.cons_append]
      show List.foldl _ (0 * 10 + ('0'.toNat - 48)) (List.replicate k '0' ++ ds) = _
      rw [show (0 * 10 + ('0'.toNat - 48)) = 0 by decide]
      exact ih

/-- A number below `10 ^ k` has at most `k` digits. -/
theorem natDigits_length_le (k : ℕ) :
    ∀ n : ℕ, n < 10 ^ k → 1 ≤ k → (natDigits n).length ≤ k := by
  induction k with
  | zero => omega
  | succ k ih =>
      intro n hn _
      rw [natDigits]
      split
      · simp
      · next h =>
          rcases Nat.eq_zero_or_pos k with hk | hk
          · subst hk
            simp at hn
            omega
          · rw [List.length_append, List.length_singleton]
            have hdiv : n / 10 < 10 ^ k := by
              rw [Nat.div_lt_iff_lt_mul (by omega)]
              calc n < 10 ^ (k + 1) := hn
                _ = 10 ^ k * 10 := by ring
            have := ih (n / 10) hdiv hk
            omega

/-- The character data of `padNum`. -/
theorem padNum_data (w n : ℕ) :
    (padNum w n).data = List.replicate (w - (natDigits n).length) '0' ++ natDigits n :=
  rfl

/-- `padNum w` renders exactly `w` characters when the value fits. -/
theorem padNum_length (w n : ℕ) (hw : 1 ≤ w) (h : n < 10 ^ w) :
    (padNum w n).data.length = w := by
  rw [padNum_data, List.length_append, List.length_replicate]
  have := natDigits_length_le w n h hw
  omega

/-- Every character of `padNum` is a digit. -/
theorem padNum_all_digit (w n : ℕ) : ∀ c ∈ (padNum w n).data, c.isDigit = true := by
  intro c hc
  rw [padNum_data] at hc
  rcases List.mem_append.mp hc with hmem | hmem
  · rw [List.eq_of_mem_replicate hmem]
    decide
  · exact natDigits_all_digit n c hmem

/-- The value of `padNum` as a digit string. -/
theorem digitsVal_padNum (w n : ℕ) : digitsVal (padNum w n).data = n := by
  rw [padNum_data, digitsVal_replicate_zero, digitsVal_natDigits]

/-! ## Character classes and stripping -/

/-- A digit character is none of the CSV-significant characters. -/
theorem digit_ne_special (c : Char) (h : c.isDigit = true) :
    c ≠ ',' ∧ c ≠ '\n' ∧ c ≠ '"' ∧ c ≠ '-' ∧ c ≠ '+' ∧ c ≠ '.' := by
  refine ⟨?_, ?_, ?_, ?_, ?_, ?_⟩ <;>
    (intro hc; subst hc; exact absurd h (by decide))

/-- A digit character is not whitespace. -/
theorem digit_not_ws (c : Char) (h : c.isDigit = true) : c.isWhitespace = false := by
  by_contra hw
  rw [Bool.not_eq_false] at hw
  simp only [Char.isWhitespace, Bool.or_eq_true, decide_eq_true_eq] at hw
  rcases hw with ((hc | hc) | hc) | hc <;>
    (subst hc; exact absurd h (by decide))

/-- `dropWhile` is the identity on a list whose head fails the predicate. -/
theorem dropWhile_no (p : Char → Bool) (l : List Char)
    (h : ∀ c ∈ l, p c = false) : l.dropWhile p = l := by
  cases l with
  | nil => rfl
  | cons a t => simp [List.dropWhile_cons, h a (by simp)]

/-- Stripping a whitespace-free string is the identity. -/
theorem pyStrip_no_ws (s : String) (h : ∀ c ∈ s.data, c.isWhitespace = false) :
    pyStrip s = s := by
  obtain ⟨d⟩ := s
  simp only [pyStrip]
  rw [dropWhile_no _ d h, dropWhile_no _ d.reverse
    (fun c hc => h c (List.mem_reverse.mp hc)), List.reverse_reverse]

/-- `takeWhile` and `dropWhile` split a list at its first predicate
failure. -/
theorem takeWhile_dropWhile_middle (p : Char → Bool) (ds : List Char) (a : Char)
    (fs : List Char) (hd : ∀ c ∈ ds, p c = true) (ha : p a = false) :
    (ds ++ a :: fs).takeWhile p = ds ∧ (ds ++ a :: fs).dropWhile p = a :: fs := by
  induction ds with
  | nil => simp [List.takeWhile_cons, List.dropWhile_cons, ha]
  | cons c t ih =>
      have hc : p c = true := hd c (by simp)
      have iht := ih (fun x hx => hd x (by simp [hx]))
      simp [List.takeWhile_cons, List.dropWhile_cons, hc, iht.1, iht.2]

/-! ## The 3-decimal format parses back to the rounded value -/

/-- The character data of `format3`: integer digits, a dot, exactly three
fractional digits. -/
theorem format3_data (q : ℚ) :
    (format3 q).data = natDigits ((pyRound (q * 1000)).toNat / 1000) ++
      '.' :: (padNum 3 ((pyRound (q * 1000)).toNat % 1000)).data := by
  simp [format3, String.data_append]

/-- Every character of `format3` is a digit or the decimal point. -/
theorem format3_all (q : ℚ) :
    ∀ c ∈ (format3 q).data, c.isDigit = true ∨ c = '.' := by
  intro c hc
  rw [format3_data] at hc
  rcases List.mem_append.mp hc with hmem | hmem
  · exact Or.inl (natDigits_all_digit _ c hmem)
  · rcases List.mem_cons.mp hmem with hmem | hmem
    · exact Or.inr hmem
    · exact Or.inl (padNum_all_digit _ _ c hmem)

/-- Parsing the fixed 3-decimal rendering of a rational recovers the rounded
millisecond value divided by 1000. -/
theorem pyFloat_format3 (q : ℚ) :
    pyFloat (format3 q) = some ((((pyRound (q * 1000)).toNat : ℕ) : ℚ) / 1000) := by
  have hnw : ∀ c ∈ (format3 q).data, c.isWhitespace = false := by
    intro c hc
    rcases format3_all q c hc with hd | hdot
    · exact digit_not_ws c hd
    · subst hdot
      decide
  have hstrip : pyStrip (format3 q) = format3 q := pyStrip_no_ws _ hnw
  obtain ⟨c0, tl, hds⟩ : ∃ c0 tl,
      natDigits ((pyRound (q * 1000)).toNat / 1000) = c0 :: tl := by
    cases hh : natDigits ((pyRound (q * 1000)).toNat / 1000) with
    | nil => exact absurd hh (natDigits_ne_nil _)
    | cons a t => exact ⟨a, t, rfl⟩
  have hc0 : c0.isDigit = true := by
    apply natDigits_all_digit ((pyRound (q * 1000)).toNat / 1000)
    rw [hds]
    simp
  have hc0s := digit_ne_special c0 hc0
  have hbody : (pyStrip (format3 q)).data =
      c0 :: (tl ++ '.' :: (padNum 3 ((pyRound (q * 1000)).toNat % 1000)).data) := by
    rw [hstrip, format3_data, hds]
    simp
  have hsplit := takeWhile_dropWhile_middle (fun c => decide (c ≠ '.'))
    (c0 :: tl) '.' (padNum 3 ((pyRound (q * 1000)).toNat % 1000)).data
    (by
      intro c hc
      simp only [decide_eq_true_eq]
      have hcd : c.isDigit = true := by
        apply natDigits_all_digit ((pyRound (q * 1000)).toNat / 1000)
        rw [hds]
        exact hc
      exact (digit_ne_special c hcd).2.2.2.2.2)
    (by simp)
  rw [List.cons_append] at hsplit
  have hsign : ¬ (c0 = '-') := hc0s.2.2.2.1
  have hsigns : ¬ (c0 = '-' ∨ c0 = '+') := by
    push_neg
    exact ⟨hc0s.2.2.2.1, hc0s.2.2.2.2.1⟩
  simp only [pyFloat, hbody, List.headD_cons]
  rw [if_neg hsign, if_neg hsigns]
  rw [hsplit.1, hsplit.2]
  rw [if_neg (List.cons_ne_nil '.' _)]
  rw [List.tail_cons]
  rw [if_neg (fun hdot => absurd (padNum_all_digit 3 _ '.' hdot) (by decide))]
  rw [if_pos ⟨Or.inl (List.cons_ne_nil c0 tl), by
    rw [List.all_eq_true]
    intro c hc
    apply natDigits_all_digit ((pyRound (q * 1000)).toNat / 1000)
    rw [hds]
    exact hc, by
    rw [List.all_eq_true]
    intro c hc
    exact padNum_all_digit _ _ c hc⟩]
  rw [one_mul]
  congr 1
  rw [← hds, digitsVal_natDigits, digitsVal_padNum,
    padNum_length 3 _ (by omega) (by
      have := Nat.mod_lt (pyRound (q * 1000)).toNat (show 0 < 1000 by omega)
      norm_num
      omega)]
  have hdm := Nat.div_add_mod (pyRound (q * 1000)).toNat 1000
  have hdmq : ((1000 * ((pyRound (q * 1000)).toNat / 1000) +
      (pyRound (q * 1000)).toNat % 1000 : ℕ) : ℚ) =
      (((pyRound (q * 1000)).toNat : ℕ) : ℚ) := by
    rw [hdm]
  push_cast at hdmq
  field_simp
  push_cast
  linarith

/-! ## CSV parser stepping lemmas -/

/-- Rebuilding a string from its own character data. -/
theorem string_mk_data (s : String) : (⟨s.data⟩ : String) = s := by
  obtain ⟨d⟩ := s
  rfl

/-- Escaping is the identity on quote-free text. -/
theorem escapeQuotes_no_quote (s : String) (h : ∀ c ∈ s.data, c ≠ '"') :
    escapeQuotes s = s := by
  obtain ⟨d⟩ := s
  simp only [escapeQuotes]
  congr 1
  induction d with
  | nil => rfl
  | cons c t ih =>
      have hc : c ≠ '"' := h c (by simp)
      simp only [List.foldr_cons, if_neg hc]
      rw [ih (fun x hx => h x (by simp [hx]))]

/-- `format3` renders at least one character. -/
theorem format3_ne_nil (q : ℚ) : (format3 q).data ≠ [] := by
  rw [format3_data]
  simp [natDigits_ne_nil]

/-- An unquoted field consumes ordinary characters one by one. -/
theorem csvAux_inField_chunk (cs : List Char)
    (h : ∀ c ∈ cs, c ≠ ',' ∧ c ≠ '\n') :
    ∀ (cur : List Char) (fields : List String) (rows : List (List String))
      (r : List Char),
      csvAux .inField cur fields rows (cs ++ r) =
        csvAux .inField (cs.reverse ++ cur) fields rows r := by
  induction cs with
  | nil => intro cur fields rows r; simp
  | cons c t ih =>
      intro cur fields rows r
      have hc := h c (by simp)
      rw [List.cons_append]
      simp only [csvAux, if_neg hc.1, if_neg hc.2]
      rw [ih (fun x hx => h x (by simp [hx]))]
      simp [List.append_assoc]

/-- A quoted field consumes quote-free characters one by one. -/
theorem csvAux_inQuoted_chunk (cs : List Char) (h : ∀ c ∈ cs, c ≠ '"') :
    ∀ (cur : List Char) (fields : List String) (rows : List (List String))
      (r : List Char),
      csvAux .inQuoted cur fields rows (cs ++ r) =
        csvAux .inQuoted (cs.reverse ++ cur) fields rows r := by
  induction cs with
  | nil => intro cur fields rows r; simp
  | cons c t ih =>
      intro cur fields rows r
      have hc := h c (by simp)
      rw [List.cons_append]
      simp only [csvAux, if_neg hc]
      rw [ih (fun x hx => h x (by simp [hx]))]
      simp [List.append_assoc]

/-- Parsing one serialized record line: the parser consumes it entirely,
emits the row `[start-field, "0", text]`, and returns to the record
boundary. -/
theorem csvAux_writeLine (t : ℚ) (text : String) (rows : List (List String))
    (r : List Char) (ht : 0 ≤ t) (hq : ∀ c ∈ text.data, c ≠ '"') :
    csvAux .startRecord [] [] rows ((writeLine 0 t text).data ++ r) =
      csvAux .startRecord [] [] ([format3 t, "0", text] :: rows) r := by
  have hmax : max 0 (t + 0) = t := by
    rw [add_zero]
    exact max_eq_right ht
  have hesc : escapeQuotes text = text := escapeQuotes_no_quote text hq
  have hdata : (writeLine 0 t text).data ++ r =
      (format3 t).data ++
        (',' :: '0' :: ',' :: '"' :: (text.data ++ ('"' :: '\n' :: r))) := by
    rw [writeLine, hmax, hesc]
    simp [String.data_append]
  rw [hdata]
  obtain ⟨c0, ftl, hfd⟩ : ∃ c0 ftl, (format3 t).data = c0 :: ftl := by
    cases hh : (format3 t).data with
    | nil => exact absurd hh (format3_ne_nil t)
    | cons a l => exact ⟨a, l, rfl⟩
  have hspec : ∀ c ∈ (format3 t).data, c ≠ ',' ∧ c ≠ '\n' ∧ c ≠ '"' := by
    intro c hc
    rcases format3_all t c hc with hd | hdot
    · have := digit_ne_special c hd
      exact ⟨this.1, this.2.1, this.2.2.1⟩
    · subst hdot
      refine ⟨by decide, by decide, by decide⟩
  have hc0 := hspec c0 (by rw [hfd]; simp)
  rw [hfd, List.cons_append]
  simp only [csvAux]
  rw [if_neg hc0.2.1, if_neg hc0.2.2, if_neg hc0.1]
  rw [csvAux_inField_chunk ftl
    (fun c hc => by
      have := hspec c (by rw [hfd]; simp [hc])
      exact ⟨this.1, this.2.1⟩)]
  simp [csvAux]
  rw [csvAux_inQuoted_chunk text.data hq]
  simp [csvAux, ← hfd, string_mk_data]

/-! ## The write/read round trip -/

/-- Rounding a non-negative rational yields a non-negative integer. -/
theorem pyRound_nonneg (q : ℚ) (h : 0 ≤ q) : 0 ≤ pyRound q := by
  have hf : (0 : ℤ) ≤ ⌊q⌋ := Int.floor_nonneg.mpr h
  rw [pyRound]
  split
  · exact hf
  · split
    · omega
    · split <;> omega

/-- Parsing a formatted non-negative start time yields `round3`. -/
theorem pyFloat_format3_round3 (t : ℚ) (ht : 0 ≤ t) :
    pyFloat (pyStrip (format3 t)) = some (round3 t) := by
  have hnw : ∀ c ∈ (format3 t).data, c.isWhitespace = false := by
    intro c hc
    rcases format3_all t c hc with hd | hdot
    · exact digit_not_ws c hd
    · subst hdot
      decide
  rw [pyStrip_no_ws _ hnw, pyFloat_format3]
  congr 1
  rw [round3]
  congr 1
  exact_mod_cast Int.toNat_of_nonneg (pyRound_nonneg _ (by positivity))

/-- The CSV parse of the full serialized output is one three-field row per
stamp, in order (with an arbitrary accumulator of already-parsed rows). -/
theorem csvParse_write_output :
    ∀ (h : List (ℚ × String)) (rows : List (List String)),
      (∀ p ∈ h, 0 ≤ p.1 ∧ ∀ c ∈ p.2.data, c ≠ '"') →
      csvAux .startRecord [] [] rows (write_output h 0).data =
        rows.reverse ++ h.map (fun p => [format3 p.1, "0", p.2])
  | [], rows, _ => by simp [write_output, csvAux]
  | (t, text) :: rest, rows, hgood => by
      have hp := hgood (t, text) (by simp)
      show csvAux .startRecord [] [] rows
        ((writeLine 0 t text ++ write_output rest 0)).data = _
      rw [String.data_append]
      rw [csvAux_writeLine t text rows _ hp.1 hp.2]
      rw [csvParse_write_output rest ([format3 t, "0", text] :: rows)
        (fun q hq => hgood q (by simp [hq]))]
      simp

/-- The row loop maps each formatted row back to its rounded stamp. -/
theorem readRows_format_rows :
    ∀ (h : List (ℚ × String)), (∀ p ∈ h, 0 ≤ p.1) →
      readRows (h.map (fun p => [format3 p.1, "0", p.2])) =
        Except.ok (h.map (fun p => (round3 p.1, p.2)))
  | [], _ => rfl
  | (t, text) :: rest, hgood => by
      rw [List.map_cons, readRows]
      rw [if_neg (by simp)]
      have hpf : pyFloat (pyStrip ([format3 t, "0", text].headD "")) =
          some (round3 t) := by
        rw [List.headD_cons]
        exact pyFloat_format3_round3 t (hgood (t, text) (by simp))
      rw [hpf]
      rw [readRows_format_rows rest (fun q hq => hgood q (by simp [hq]))]
      simp

/-- C4 amended: for tap histories with non-negative elapsed times and texts
free of double quotes, writing with `write_output` at offset 0 and reading
back with `read_lyrics_csv` recovers exactly the stamps with starts rounded
to three decimals, in the reader's stable-sorted order (identical to the
input order whenever the history is non-decreasing in time).  Texts with a
double quote do not round-trip — see the counterexample. -/
theorem c4_roundtrip (h : List (ℚ × String))
    (hgood : ∀ p ∈ h, 0 ≤ p.1 ∧ ∀ c ∈ p.2.data, c ≠ '"') :
    read_lyrics_csv (write_output h 0) =
      Except.ok (sortEntries (h.map (fun p => (round3 p.1, p.2)))) := by
  have hparse : csvParse (write_output h 0) =
      h.map (fun p => [format3 p.1, "0", p.2]) := by
    rw [csvParse, csvParse_write_output h [] hgood]
    rfl
  rw [read_lyrics_csv, hparse,
    readRows_format_rows h (fun p hp => (hgood p hp).1)]
  rfl

/-- C4 witness: a concrete quote-free history round-trips. -/
theorem c4_roundtrip_witness :
    read_lyrics_csv (write_output [((3 : ℚ)/2, "hi")] 0) =
      Except.ok (sortEntries ([((3 : ℚ)/2, "hi")].map
        (fun p => (round3 p.1, p.2)))) :=
  c4_roundtrip [((3 : ℚ)/2, "hi")] (by
    intro p hp
    simp only [List.mem_singleton] at hp
    subst hp
    exact ⟨by norm_num, by decide⟩)

end LyricsScroller
